import Mathlib

/-!
Verification development for the `tmpim/anvil` repository: a shallow
embedding of its coordinate algebra (`region.go`), region-container reader
(`read.go`) and NBT tagged-blob reader with its structural index
(`nbt/nbt.go`, `nbt/index.go`), together with theorems settling the
specification claims.

Bytes are modelled as `Nat` values (each in `[0, 255]` in well-formed
inputs), buffers as `List Nat`, cursors as `Nat`.  Go panics (out-of-range
indexing or slicing, nil dereference, `reflect` misuse) are modelled by
explicit `crashed` result constructors; Go `error` values are modelled by
explicit error constructors.  Unbounded loops and recursion are modelled
with a fuel parameter; running out of fuel is a separate `fuelOut`
outcome that no theorem below treats as either success or crash.
-/

namespace Anvil

/-- Arithmetic (sign-preserving) right shift by `n` bits, as Go's `>>` on
signed integers: floor division by `2 ^ n`. -/
def sar (x : Int) (n : Nat) : Int := Int.fdiv x (2 ^ n)

/-- Go `Coord` from `region.go`: a voxel coordinate. -/
structure Coord where
  X : Int
  Y : Int
  Z : Int
deriving DecidableEq, Repr

/-- Go `Chunk` from `region.go`. -/
structure Chunk where
  X : Int
  Y : Int
  Z : Int
deriving DecidableEq, Repr

/-- Go `Region` from `region.go`. -/
structure Region where
  X : Int
  Z : Int
deriving DecidableEq, Repr

/-- Go `Coord.Chunk` from `region.go` (both copies are identical): only the
`X` and `Z` fields are populated, so `Y` is Go's zero value `0`. -/
def Coord.chunk (c : Coord) : Chunk :=
  { X := sar c.X 4, Y := 0, Z := sar c.Z 4 }

/-- Go `Coord.Region` from the first copy of `region.go`: right shift by 11. -/
def Coord.regionShift11 (c : Coord) : Region :=
  { X := sar c.X 11, Z := sar c.Z 11 }

/-- Go `Coord.Region` from the second copy of `region.go`: right shift by 9. -/
def Coord.regionShift9 (c : Coord) : Region :=
  { X := sar c.X 9, Z := sar c.Z 9 }

/-- Go `Chunk.Region` from `region.go` (both copies identical): right shift by 5. -/
def Chunk.region (c : Chunk) : Region :=
  { X := sar c.X 5, Z := sar c.Z 5 }

end Anvil

namespace Nbt

/-- Byte access `data[i]`; callers guard the bound, mirroring the Go code
whose unguarded accesses are modelled as crashes before `byteAt` is used. -/
def byteAt (data : List Nat) (i : Nat) : Nat := data.getD i 0

/-- Big-endian 16-bit value at `i` (two bytes). -/
def be16 (data : List Nat) (i : Nat) : Nat :=
  byteAt data i * 256 + byteAt data (i + 1)

/-- Big-endian 32-bit value at `i` (four bytes), as read by `readInt`. -/
def be32 (data : List Nat) (i : Nat) : Nat :=
  byteAt data i * 16777216 + byteAt data (i + 1) * 65536 +
    byteAt data (i + 2) * 256 + byteAt data (i + 3)

/-- Big-endian 64-bit value at `i` (eight bytes), as read by `readInt64`. -/
def be64 (data : List Nat) (i : Nat) : Nat :=
  be32 data i * 4294967296 + be32 data (i + 4)

/-- Reinterpret a 16-bit unsigned value as a signed `int16`. -/
def toInt16 (n : Nat) : Int :=
  if n < 32768 then (n : Int) else (n : Int) - 65536

/-- Reinterpret a 32-bit unsigned value as a signed `int32`
(`int(int32(r.readInt()))` in the Go code). -/
def toInt32 (n : Nat) : Int :=
  if n < 2147483648 then (n : Int) else (n : Int) - 4294967296

/-- Reinterpret a 64-bit unsigned value as a signed `int64`. -/
def toInt64 (n : Nat) : Int :=
  if n < 9223372036854775808 then (n : Int) else (n : Int) - 18446744073709551616

/-- Go `TagHeader` from `nbt/nbt.go`: tag id and name bytes. -/
structure TagHeader where
  tagID : Nat
  name : List Nat
deriving DecidableEq, Repr

/-- Go `TagHeader.Length`: `3 + len(t.Name)`. -/
def TagHeader.length (t : TagHeader) : Nat := 3 + t.name.length

/-- Go `TagHeader.Bytes`: 1-byte tag id, 2-byte big-endian name length, name. -/
def TagHeader.bytes (t : TagHeader) : List Nat :=
  t.tagID :: (t.name.length / 256) % 256 :: t.name.length % 256 :: t.name

/-- Result of `Reader.ReadTagHeader`: the Go routine returns `io.EOF` when
the cursor is at or past the end, and panics (no bounds checks) when a
header begins in bounds but its name length bytes or name bytes extend
past the end of the buffer. -/
inductive HeaderRes
| eof
| crashed
| ok (h : TagHeader) (unread : Nat) (cursor : Nat)
deriving DecidableEq, Repr

/-- Go `Reader.ReadTagHeader` from `nbt/nbt.go` (both copies identical). -/
def readTagHeader (data : List Nat) (c : Nat) : HeaderRes :=
  if data.length ≤ c then .eof
  else if byteAt data c = 0 then .ok ⟨0, []⟩ 1 (c + 1)
  else if c + 2 < data.length then
    let n := be16 data (c + 1)
    if c + 3 + n ≤ data.length then
      .ok ⟨byteAt data c, (data.drop (c + 3)).take n⟩ (3 + n) (c + 3 + n)
    else .crashed
  else .crashed

/-- Result of `Reader.SkipTagHeader`, which reads only the first three
bytes of a header and never touches the name bytes. -/
inductive SkipHeaderRes
| eof
| crashed
| ok (unread : Nat) (cursor : Nat)
deriving DecidableEq, Repr

/-- Go `Reader.SkipTagHeader` from `nbt/nbt.go`: unlike `ReadTagHeader` it
does not slice out the name, so the cursor may legally move past the end
of the buffer; it crashes only when the two name-length bytes are
themselves out of range. -/
def skipTagHeader (data : List Nat) (c : Nat) : SkipHeaderRes :=
  if data.length ≤ c then .eof
  else if byteAt data c = 0 then .ok 1 (c + 1)
  else if c + 2 < data.length then
    let u := 3 + be16 data (c + 1)
    .ok u (c + u)
  else .crashed

/-- Result of `Reader.ReadListTagHeader`: the Go routine has no bounds
checks at all; crashing mid-way leaves the cursor where the partial
mutation put it (`r.cursor++` happens before `readInt`). -/
inductive ListHeaderRes
| crashedAt (cursor : Nat)
| ok (tagID : Nat) (length : Nat) (cursor : Nat)
deriving DecidableEq, Repr

/-- Go `Reader.ReadListTagHeader` from `nbt/nbt.go` (both copies identical):
1-byte element tag id, then a 4-byte big-endian length; `unread` is
always 5 so it is not returned here. -/
def readListTagHeader (data : List Nat) (c : Nat) : ListHeaderRes :=
  if c < data.length then
    if c + 5 ≤ data.length then .ok (byteAt data c) (be32 data (c + 1)) (c + 5)
    else .crashedAt (c + 1)
  else .crashedAt c

/-- Go `bytes.Index(s, pat)`: the first index at which `pat` occurs as a
contiguous sub-sequence of `s` (`none` when absent; `some 0` for an
empty pattern). -/
def bytesIndex (s pat : List Nat) : Option Nat :=
  (List.range (s.length + 1)).find? fun i => decide ((s.drop i).take pat.length = pat)

/-- Go `bytes.LastIndex(s, pat)`: the last index at which `pat` occurs. -/
def bytesLastIndex (s pat : List Nat) : Option Nat :=
  ((List.range (s.length + 1)).filter fun i =>
    decide ((s.drop i).take pat.length = pat)).getLast?

end Nbt

namespace Anvil

/-- The 24-bit big-endian sector pointer stored in the locator header at
slot offset `off`: `header[off]<<16 | header[off+1]<<8 | header[off+2]`. -/
def slotPtr (header : List Nat) (off : Nat) : Nat :=
  Nbt.byteAt header off * 65536 + Nbt.byteAt header (off + 1) * 256 +
    Nbt.byteAt header (off + 2)

/-- Go `RegionReader.readRawChunk` from `read.go`, with the region file
contents as the byte list `file`.  It seeks to `slotPtr << 12` (i.e.
`slotPtr * 4096`), reads a 5-byte chunk header whose first four bytes are
a big-endian length and whose fifth byte is the compression flag, and
then reads `length` further bytes (`data := make([]byte, length)`
followed by `io.ReadFull`).  A short read surfaces as an error. -/
def readRawChunk (header file : List Nat) (offset : Nat) : Except Unit (List Nat) :=
  let pos := slotPtr header offset * 4096
  if pos + 5 ≤ file.length then
    let length := Nbt.be32 file pos
    if pos + 5 + length ≤ file.length then
      .ok ((file.drop (pos + 5)).take length)
    else .error ()
  else .error ()

/-- Modelled from the spec: the payload the specification says
`readRawChunk` returns — the `length − 1` compressed bytes that follow
the 4-byte length and the 1-byte compression flag. -/
def specRawChunkPayload (header file : List Nat) (offset : Nat) : List Nat :=
  let pos := slotPtr header offset * 4096
  (file.drop (pos + 5)).take (Nbt.be32 file pos - 1)

end Anvil

namespace Nbt

/-- Go `IndexEntry` from the first copy of `nbt/nbt.go`: parent and children
are integer cursor positions (`-1` is the nil parent, as produced by both
the synthetic root and a selectively matched tag whose enclosing tag was
not indexed). -/
structure IdxEntry where
  parent : Int
  children : List Nat
  header : TagHeader
  listIndex : Int
deriving DecidableEq, Repr

/-- Go `Reader` from the first copy of `nbt/nbt.go`: backing buffer, cursor,
and the optional position-keyed index map. -/
structure Reader where
  data : List Nat
  cursor : Nat
  index : Option (List (Nat × IdxEntry))
deriving DecidableEq, Repr

/-- Go `NewReader`. -/
def newReader (data : List Nat) : Reader := ⟨data, 0, none⟩

/-- Association-list model of the Go map `map[int]*IndexEntry`: lookup. -/
def lookupAL (k : Nat) : List (Nat × IdxEntry) → Option IdxEntry
  | [] => none
  | (k', v) :: rest => if k = k' then some v else lookupAL k rest

/-- Association-list model of the Go map: insert or overwrite. -/
def insertAL (k : Nat) (v : IdxEntry) : List (Nat × IdxEntry) → List (Nat × IdxEntry)
  | [] => [(k, v)]
  | (k', v') :: rest =>
    if k = k' then (k, v) :: rest else (k', v') :: insertAL k v rest

/-- Go `par.Children = append(par.Children, pos)` through the map pointer:
update the children list of the entry stored at key `k`. -/
def appendChild (k : Nat) (pos : Nat) : List (Nat × IdxEntry) → List (Nat × IdxEntry)
  | [] => []
  | (k', v) :: rest =>
    if k = k' then (k', { v with children := v.children ++ [pos] }) :: rest
    else (k', v) :: appendChild k pos rest

/-- Outcome of a `SimpleMatch` run (loop part). -/
inductive SLoopRes
| fuelOut
| crashed
| ok (positions : List Nat)
deriving DecidableEq, Repr

/-- The scanning loop of `Reader.SimpleMatch` from the second copy of
`nbt/nbt.go`.  Each hit advances the cursor to one past the match and
records `r.cursor - 1`; the loop breaks as soon as
`total > 0 && total >= count`. -/
def simpleMatchLoop (data pat : List Nat) (count : Int) :
    Nat → Nat → Nat → List Nat → SLoopRes
  | 0, _, _, _ => .fuelOut
  | fuel + 1, cursor, total, acc =>
    if cursor ≤ data.length then
      match bytesIndex (data.drop cursor) pat with
      | none => .ok acc.reverse
      | some i =>
        let cursor' := cursor + i + 1
        let total' := total + 1
        let acc' := (cursor' - 1) :: acc
        if 0 < total' ∧ count ≤ (total' : Int) then .ok acc'.reverse
        else simpleMatchLoop data pat count fuel cursor' total' acc'
    else .crashed

/-- Outcome of `SimpleMatch` including the reader after the deferred
cursor restoration (`defer func() { r.cursor = prevCursor }()` runs on
both normal return and panic unwinding). -/
inductive SimpleRes
| fuelOut
| crashed (r : Reader)
| ok (positions : List Nat) (r : Reader)
deriving DecidableEq, Repr

/-- Go `Reader.SimpleMatch` from the second copy of `nbt/nbt.go`. -/
def simpleMatch (r : Reader) (pat : List Nat) (count : Int) : SimpleRes :=
  let prevCursor := r.cursor
  match simpleMatchLoop r.data pat count (r.data.length + 2) 0 0 [] with
  | .fuelOut => .fuelOut
  | .crashed => .crashed { r with cursor := prevCursor }
  | .ok l => .ok l { r with cursor := prevCursor }

/-- One pattern group of `PossibleTagMatch`: fold Go's inner
`for _, pat := range group` loop.  `none` models the early
`return false, nil` on a pattern with no occurrence; otherwise the pair
carries the updated `maxLimit` and the group's `found` flag. -/
def ptmGroup (data : List Nat) (group : List (List Nat)) (maxLimit : Nat) :
    Option (Nat × Bool) :=
  group.foldl
    (fun acc pat =>
      acc.bind fun ml => (bytesLastIndex data pat).map fun idx =>
        if idx < ml.1 then (idx, true) else ml)
    (some (maxLimit, false))

/-- The outer loop of `PossibleTagMatch`, over the groups in reverse
order (`for i := len(patterns) - 1; i >= 0; i--`). -/
def ptmLoop (data : List Nat) : List (List (List Nat)) → Nat → Bool
  | [], _ => true
  | g :: rest, ml =>
    match ptmGroup data g ml with
    | none => false
    | some (ml', found) => if found then ptmLoop data rest ml' else false

/-- Go `Reader.PossibleTagMatch` from `nbt/nbt.go` (both copies identical):
a cheap filter over the raw bytes; it never touches the cursor or the
index, and its error result is always nil. -/
def possibleTagMatch (r : Reader) (patterns : List (List (List Nat))) :
    Bool × Reader :=
  (ptmLoop r.data patterns.reverse r.data.length, r)

/-- Outcome of the `SkipTag` family: these routines mutate only the
cursor; a crash records the cursor value at the moment of the panic. -/
inductive SkipRes
| fuelOut
| crashed (cursor : Nat)
| ok (cursor : Nat)
deriving DecidableEq, Repr

mutual

/-- Go `Reader.SkipTag` from the first copy of `nbt/nbt.go`: advances the
cursor past the payload of `t`, assuming the header was just consumed.
Fixed widths for numerics, length prefixes for arrays and strings,
recursion for List and Compound, and a panic on an invalid tag id. -/
def skipTag (data : List Nat) (fuel : Nat) (t : Nat) (c : Nat) : SkipRes :=
  match fuel with
  | 0 => .fuelOut
  | fuel + 1 =>
    if t = 0 then .ok c
    else if t = 1 then .ok (c + 1)
    else if t = 2 then .ok (c + 2)
    else if t = 3 ∨ t = 5 then .ok (c + 4)
    else if t = 4 ∨ t = 6 then .ok (c + 8)
    else if t = 7 then
      if c + 4 ≤ data.length then .ok (c + 4 + be32 data c) else .crashed c
    else if t = 8 then
      if c + 1 < data.length then .ok (c + 2 + be16 data c) else .crashed c
    else if t = 11 then
      if c + 4 ≤ data.length then .ok (c + 4 + 4 * be32 data c) else .crashed c
    else if t = 12 then
      if c + 4 ≤ data.length then .ok (c + 4 + 8 * be32 data c) else .crashed c
    else if t = 9 then
      match readListTagHeader data c with
      | .crashedAt c' => .crashed c'
      | .ok elemTag len c' => skipElems data fuel elemTag len c'
    else if t = 10 then skipCompound data fuel c
    else .crashed c
termination_by structural fuel

/-- The element loop of `SkipTag(TagList)`. -/
def skipElems (data : List Nat) (fuel : Nat) (t : Nat) (n : Nat) (c : Nat) : SkipRes :=
  match fuel with
  | 0 => .fuelOut
  | fuel + 1 =>
    match n with
    | 0 => .ok c
    | n + 1 =>
      match skipTag data fuel t c with
      | .ok c' => skipElems data fuel t n c'
      | .crashed cc => .crashed cc
      | .fuelOut => .fuelOut
termination_by structural fuel

/-- The header loop of `SkipTag(TagCompound)`.  The Go code discards the
error of `ReadTagHeader`, so at end-of-file the zero-value header (tag id
0) terminates the loop. -/
def skipCompound (data : List Nat) (fuel : Nat) (c : Nat) : SkipRes :=
  match fuel with
  | 0 => .fuelOut
  | fuel + 1 =>
    match readTagHeader data c with
    | .eof => .ok c
    | .crashed => .crashed c
    | .ok h _ c' =>
      if h.tagID = 0 then .ok c'
      else
        match skipTag data fuel h.tagID c' with
        | .ok c'' => skipCompound data fuel c''
        | .crashed cc => .crashed cc
        | .fuelOut => .fuelOut
termination_by structural fuel

end

end Nbt

namespace Nbt

/-- Shape of the destination passed to `ReadImmediate`, standing in for
the reflected Go type of the pointed-to value: the scalar and slice
destinations, a struct destination presented as the name-to-destination
mapping `resultMap` that `readCompound` derives from its fields, a
string-keyed map destination with its element shape, and the empty
interface destination that `ReadImmediate` redirects through
`createType`. -/
inductive DestTy
| dByte
| dShort
| dInt
| dLong
| dFloat
| dDouble
| dBytes
| dString
| dList (elem : DestTy)
| dStruct (fields : List (List Nat × DestTy))
| dMap (elem : DestTy)
| dIntArr
| dLongArr
| dIface

/-- A decoded NBT immediate value (floats are kept as raw bit patterns,
matching the bit-reinterpreting Go decode). -/
inductive NbtValue
| vByte (b : Nat)
| vShort (v : Int)
| vLong (v : Int)
| vInt (v : Int)
| vFloat (bits : Nat)
| vDouble (bits : Nat)
| vBytes (bs : List Nat)
| vStr (bs : List Nat)
| vList (vs : List NbtValue)
| vStructDone
| vMapEmpty
| vInts (vs : List Int)
| vLongs (vs : List Int)

/-- Go `createType` from `nbt/nbt.go`, as a destination shape: the concrete
type `ReadImmediate` materialises behind an empty-interface destination. -/
def canonDest (t : Nat) : DestTy :=
  if t = 1 then .dByte
  else if t = 2 then .dShort
  else if t = 3 then .dInt
  else if t = 4 then .dLong
  else if t = 5 then .dFloat
  else if t = 6 then .dDouble
  else if t = 7 then .dBytes
  else if t = 8 then .dString
  else if t = 9 then .dList .dIface
  else if t = 10 then .dMap .dIface
  else if t = 11 then .dIntArr
  else .dLongArr

/-- Look a child name up in the struct destination's `resultMap`. -/
def lookupName (fields : List (List Nat × DestTy)) (name : List Nat) : Option DestTy :=
  (fields.find? fun f => decide (f.1 = name)).map (·.2)

/-- Outcome of `ReadImmediate` / `readCompound`: a decoded value with the
bytes consumed (`unread`) and the new cursor; a Go error return carrying
the consumed bytes and the cursor at the return point; or a panic. -/
inductive IRes
| fuelOut
| crashed
| err (unread : Nat) (cursor : Nat)
| ok (v : NbtValue) (unread : Nat) (cursor : Nat)

mutual

/-- Go `Reader.ReadImmediate` from the second copy of `nbt/nbt.go` (the
first copy differs only in its broken `reflect.MakeSlice` arguments in
the List branch).  Type checks (`value.(*byte)` and friends) happen
before any byte is read, so a mismatch is an error return with the
cursor unchanged; the byte reads themselves are unchecked and panic when
they would run past the end of the buffer.  An empty-interface
destination is redirected through `createType`, which panics on tag ids
outside 1..12 (including `TagEnd`). -/
def readImmediate (data : List Nat) (fuel : Nat) (t : Nat) (dest : DestTy)
    (c : Nat) : IRes :=
  match fuel with
  | 0 => .fuelOut
  | fuel + 1 =>
    match dest with
    | .dIface =>
      if 1 ≤ t ∧ t ≤ 12 then readImmediate data fuel t (canonDest t) c
      else .crashed
    | dest =>
      if t = 0 then .err 0 c
      else if t = 1 then
        match dest with
        | .dByte =>
          if c < data.length then .ok (.vByte (byteAt data c)) 1 (c + 1) else .crashed
        | _ => .err 0 c
      else if t = 2 then
        match dest with
        | .dShort =>
          if c + 2 ≤ data.length then .ok (.vShort (toInt16 (be16 data c))) 2 (c + 2)
          else .crashed
        | _ => .err 0 c
      else if t = 3 then
        match dest with
        | .dInt =>
          if c + 4 ≤ data.length then .ok (.vInt (toInt32 (be32 data c))) 4 (c + 4)
          else .crashed
        | _ => .err 0 c
      else if t = 4 then
        match dest with
        | .dLong =>
          if c + 8 ≤ data.length then .ok (.vLong (toInt64 (be64 data c))) 8 (c + 8)
          else .crashed
        | _ => .err 0 c
      else if t = 5 then
        match dest with
        | .dFloat =>
          if c + 4 ≤ data.length then .ok (.vFloat (be32 data c)) 4 (c + 4)
          else .crashed
        | _ => .err 0 c
      else if t = 6 then
        match dest with
        | .dDouble =>
          if c + 8 ≤ data.length then .ok (.vDouble (be64 data c)) 8 (c + 8)
          else .crashed
        | _ => .err 0 c
      else if t = 7 then
        match dest with
        | .dBytes =>
          if c + 4 ≤ data.length then
            let n := be32 data c
            if c + 4 + n ≤ data.length then
              .ok (.vBytes ((data.drop (c + 4)).take n)) (4 + n) (c + 4 + n)
            else .crashed
          else .crashed
        | _ => .err 0 c
      else if t = 8 then
        match dest with
        | .dString =>
          if c + 1 < data.length then
            let n := be16 data c
            if c + 2 + n ≤ data.length then
              .ok (.vStr ((data.drop (c + 2)).take n)) (2 + n) (c + 2 + n)
            else .crashed
          else .crashed
        | _ => .err 0 c
      else if t = 9 then
        match readListTagHeader data c with
        | .crashedAt _ => .crashed
        | .ok elemTag n c' =>
          match dest with
          | .dList e => readListElems data fuel elemTag e n c' 5 []
          | _ => .err 5 c'
      else if t = 10 then
        match dest with
        | .dStruct fields => readCompoundStruct data fuel fields c 0
        | .dMap e => readCompoundMap data fuel e c 0
        | _ => .err 0 c
      else if t = 11 then
        match dest with
        | .dIntArr =>
          if c + 4 ≤ data.length then
            let n := be32 data c
            if c + 4 + 4 * n ≤ data.length then
              .ok (.vInts ((List.range n).map fun i => toInt32 (be32 data (c + 4 + 4 * i))))
                (4 + 4 * n) (c + 4 + 4 * n)
            else .crashed
          else .crashed
        | _ => .err 0 c
      else if t = 12 then
        match dest with
        | .dLongArr =>
          if c + 4 ≤ data.length then
            let n := be32 data c
            if c + 4 + 8 * n ≤ data.length then
              .ok (.vLongs ((List.range n).map fun i => toInt64 (be64 data (c + 4 + 8 * i))))
                (4 + 8 * n) (c + 4 + 8 * n)
            else .crashed
          else .crashed
        | _ => .err 0 c
      else .err 0 c
termination_by structural fuel

/-- The element loop of the `TagList` branch of `ReadImmediate`:
`length` elements decoded into the slice's element destination, with the
`unread` counts accumulated. -/
def readListElems (data : List Nat) (fuel : Nat) (elemTag : Nat) (e : DestTy)
    (n : Nat) (c : Nat) (unread : Nat) (acc : List NbtValue) : IRes :=
  match fuel with
  | 0 => .fuelOut
  | fuel + 1 =>
    match n with
    | 0 => .ok (.vList acc.reverse) unread c
    | n + 1 =>
      match readImmediate data fuel elemTag e c with
      | .ok v du c' => readListElems data fuel elemTag e n c' (unread + du) (v :: acc)
      | .err du c' => .err (unread + du) c'
      | .crashed => .crashed
      | .fuelOut => .fuelOut
termination_by structural fuel

/-- The struct case of `readCompound` from `nbt/nbt.go` (both copies
identical).  Successive headers are read; `TagEnd` breaks the loop; a
child whose name is not a key of `resultMap` is `continue`d over
WITHOUT skipping its payload, so the next header is read from inside
that child's payload; a mapped child is decoded through the field
pointer, after which the Go code calls `underlying.SetMapIndex` on the
struct value, which panics (`reflect.Value.SetMapIndex` requires a map),
modelled as a crash. -/
def readCompoundStruct (data : List Nat) (fuel : Nat)
    (fields : List (List Nat × DestTy)) (c : Nat) (unread : Nat) : IRes :=
  match fuel with
  | 0 => .fuelOut
  | fuel + 1 =>
    match readTagHeader data c with
    | .eof => .err unread c
    | .crashed => .crashed
    | .ok h du c' =>
      let unread := unread + du
      if h.tagID = 0 then .ok .vStructDone unread c'
      else
        match lookupName fields h.name with
        | none => readCompoundStruct data fuel fields c' unread
        | some dty =>
          match readImmediate data fuel h.tagID dty c' with
          | .ok _ _ _ => .crashed
          | .err du2 c'' => .err (unread + du2) c''
          | .crashed => .crashed
          | .fuelOut => .fuelOut
termination_by structural fuel

/-- The map case of `readCompound`: every child is decoded into a fresh
element value (there is no name filter), after which
`underlying.SetMapIndex` is called with the `[]byte` name as key on a
string-keyed map, which panics (the key is not assignable), modelled as
a crash.  Only an immediately empty compound returns normally. -/
def readCompoundMap (data : List Nat) (fuel : Nat) (e : DestTy) (c : Nat)
    (unread : Nat) : IRes :=
  match fuel with
  | 0 => .fuelOut
  | fuel + 1 =>
    match readTagHeader data c with
    | .eof => .err unread c
    | .crashed => .crashed
    | .ok h du c' =>
      let unread := unread + du
      if h.tagID = 0 then .ok .vMapEmpty unread c'
      else
        match readImmediate data fuel h.tagID e c' with
        | .ok _ _ _ => .crashed
        | .err du2 c'' => .err (unread + du2) c''
        | .crashed => .crashed
        | .fuelOut => .fuelOut
termination_by structural fuel

end

end Nbt

namespace Nbt

/-- Go `SelectiveIndex.Matches` from the first copy of `nbt/nbt.go`: some
selection has the same tag id and (byte-equal) name. -/
def selMatches (sel : List TagHeader) (h : TagHeader) : Bool :=
  sel.any fun s => decide (s.tagID = h.tagID ∧ s.name = h.name)

/-- Traversal state of the index builder: the reader's cursor and the
position-keyed index map. -/
structure IState where
  cursor : Nat
  index : List (Nat × IdxEntry)
deriving DecidableEq, Repr

/-- Outcome of an index-builder routine.  A crash carries the state at
the moment of the panic: entries already stored in the map stay stored,
and the cursor stays wherever the partially executed reads left it. -/
inductive XRes
| fuelOut
| crashed (st : IState)
| ok (st : IState)
deriving DecidableEq, Repr

mutual

/-- Go `Reader.indexCompound` from the first copy of `nbt/nbt.go`.  The
parent entry `par := r.Index[parent]` is fetched once at entry; only its
non-nilness steers the loop (the append through the pointer is modelled
as a keyed update, sound because positions are never overwritten). -/
def indexCompound (data : List Nat) (sel : List TagHeader) (fuel : Nat)
    (st : IState) (parent : Nat) (index : Bool) : XRes :=
  match fuel with
  | 0 => .fuelOut
  | fuel + 1 =>
    indexLoop data sel fuel st parent index
      (index && (lookupAL parent st.index).isSome)
termination_by structural fuel

/-- The header loop of `indexCompound`.  `parNN` is the non-nilness of
the `par` pointer fetched at `indexCompound` entry: when it is false, a
recorded entry gets `Parent: -1`; when true, the entry gets
`Parent: parent` and is appended to the parent's children. -/
def indexLoop (data : List Nat) (sel : List TagHeader) (fuel : Nat)
    (st : IState) (parent : Nat) (index : Bool) (parNN : Bool) : XRes :=
  match fuel with
  | 0 => .fuelOut
  | fuel + 1 =>
    match readTagHeader data st.cursor with
    | .eof => .ok st
    | .crashed => .crashed st
    | .ok h _ c' =>
      let shouldIndex := index || selMatches sel h
      let st2 : IState :=
        if shouldIndex then
          let ent : IdxEntry :=
            ⟨if parNN then (parent : Int) else -1, [], h, -1⟩
          let ix := insertAL c' ent st.index
          ⟨c', if parNN then appendChild parent c' ix else ix⟩
        else ⟨c', st.index⟩
      if h.tagID = 0 then .ok st2
      else if h.tagID = 10 then
        match indexCompound data sel fuel st2 c' shouldIndex with
        | .ok st3 => indexLoop data sel fuel st3 parent index parNN
        | .crashed cc => .crashed cc
        | .fuelOut => .fuelOut
      else if h.tagID = 9 then
        match indexList data sel fuel st2 c' shouldIndex with
        | .ok st3 => indexLoop data sel fuel st3 parent index parNN
        | .crashed cc => .crashed cc
        | .fuelOut => .fuelOut
      else
        match skipTag data fuel h.tagID st2.cursor with
        | .ok c'' => indexLoop data sel fuel ⟨c'', st2.index⟩ parent index parNN
        | .crashed cc => .crashed ⟨cc, st2.index⟩
        | .fuelOut => .fuelOut
termination_by structural fuel

/-- Go `Reader.indexList` from the first copy of `nbt/nbt.go`: lists whose
element tag is neither Compound nor List are unread and skipped whole;
otherwise each element is (optionally) recorded with its list index and
descended into. -/
def indexList (data : List Nat) (sel : List TagHeader) (fuel : Nat)
    (st : IState) (parent : Nat) (index : Bool) : XRes :=
  match fuel with
  | 0 => .fuelOut
  | fuel + 1 =>
    match readListTagHeader data st.cursor with
    | .crashedAt cc => .crashed ⟨cc, st.index⟩
    | .ok tagID len c' =>
      if tagID ≠ 10 ∧ tagID ≠ 9 then
        match skipTag data fuel 9 st.cursor with
        | .ok c'' => .ok ⟨c'', st.index⟩
        | .crashed cc => .crashed ⟨cc, st.index⟩
        | .fuelOut => .fuelOut
      else
        indexListElems data sel fuel tagID len 0 ⟨c', st.index⟩ parent index
          ((lookupAL parent st.index).isSome)
termination_by structural fuel

/-- The element loop of `indexList`: `n` elements remain and the current
element has list index `i`.  When `index` is set, the entry for the
element at the current cursor is stored (its `Parent` is the `parent`
position unconditionally) and then appended to `par.Children`; if `par`
was a nil pointer (`parent` missing from the map) that append panics
after the store. -/
def indexListElems (data : List Nat) (sel : List TagHeader) (fuel : Nat)
    (tagID : Nat) (n : Nat) (i : Nat) (st : IState) (parent : Nat)
    (index : Bool) (parFound : Bool) : XRes :=
  match fuel with
  | 0 => .fuelOut
  | fuel + 1 =>
    match n with
    | 0 => .ok st
    | n + 1 =>
      let st2 : IState :=
        if index then
          ⟨st.cursor, insertAL st.cursor ⟨(parent : Int), [], ⟨tagID, []⟩, (i : Int)⟩ st.index⟩
        else st
      if index && !parFound then .crashed st2
      else
        let st3 : IState :=
          if index then ⟨st2.cursor, appendChild parent st.cursor st2.index⟩ else st2
        let rec_ := if tagID = 10 then indexCompound data sel fuel st3 st.cursor index
          else indexList data sel fuel st3 st.cursor index
        match rec_ with
        | .ok st4 => indexListElems data sel fuel tagID n (i + 1) st4 parent index parFound
        | .crashed cc => .crashed cc
        | .fuelOut => .fuelOut
termination_by structural fuel

end

/-- The synthetic root entry `PrepareIndex` stores at position 0:
`Parent: -1`, `ListIndex: -1`, header `TagEnd` named `"root"`. -/
def rootEntry : IdxEntry := ⟨-1, [], ⟨0, [114, 111, 111, 116]⟩, -1⟩

/-- Go `Reader.PrepareIndex` from the first copy of `nbt/nbt.go`.  The
deferred `recover` turns a traversal panic into the
`"nbt: panic preparing index"` error, but the `r.cursor = savedCursor`
restoration is straight-line code after `indexCompound` and therefore
does not run on the panic path: the returned reader keeps the cursor of
the crash point, and keeps the partially filled index map that was
assigned to `r.Index` before the traversal.  `none` models running out
of fuel. -/
def prepareIndex (fuel : Nat) (r : Reader) (sel : List TagHeader) :
    Option (Reader × Option String) :=
  if r.index.isSome then some (r, none)
  else
    let st0 : IState := ⟨r.cursor, [(0, rootEntry)]⟩
    match indexCompound r.data sel fuel st0 0 false with
    | .ok st' => some ({ r with index := some st'.index }, none)
    | .crashed st' =>
      some ({ r with cursor := st'.cursor, index := some st'.index },
        some "nbt: panic preparing index")
    | .fuelOut => none

end Nbt

namespace Nbt

/-- Go error values that the match and breadcrumb routines can return. -/
inductive GoErr
| notIndexed
| indexCorrupt
| invalidHeaderLocation
| crumbsFailed
deriving DecidableEq, Repr

/-- Go `Reader.Breadcrumbs` from the first copy of `nbt/nbt.go`, walking
parent positions from `start` to the root: element 0 is the starting
entry.  A missing entry at the starting position is
`ErrInvalidHeaderLocation`; a dangling parent is `ErrIndexCorrupt`. -/
def breadcrumbs (ix : List (Nat × IdxEntry)) (start : Nat) :
    Nat → Nat → List (Nat × IdxEntry) → Except GoErr (List (Nat × IdxEntry))
  | 0, _, _ => .error .crumbsFailed
  | fuel + 1, pos, acc =>
    match lookupAL pos ix with
    | none =>
      if pos = start then .error .invalidHeaderLocation else .error .indexCorrupt
    | some meta =>
      let acc := acc ++ [(pos, meta)]
      if meta.parent < 0 then .ok acc
      else breadcrumbs ix start fuel meta.parent.toNat acc

/-- The scan of one candidate byte range (`childPos`, an `int` that the
Go code lets go negative) against the remaining patterns, in order:
`if len(r.data)-childPos < len(matchTo) { continue }`, then a byte
comparison of `r.data[childPos : childPos+len(matchTo)]` (which panics
for a negative `childPos`).  Returns `none` for the panic, `some none`
when no pattern matches, and `some (some i)` for the first matching
pattern index. -/
def scanChecks (data : List Nat) (childPos : Int) :
    List (List Nat) → Nat → Option (Option Nat)
  | [], _ => some none
  | m :: ms, i =>
    if (data.length : Int) - childPos < (m.length : Int) then
      scanChecks data childPos ms (i + 1)
    else if childPos < 0 then none
    else if (data.drop childPos.toNat).take m.length = m then some (some i)
    else scanChecks data childPos ms (i + 1)

/-- Go's swap-remove on the working pattern list:
`headerChecks[i] = headerChecks[len-1]; headerChecks = headerChecks[:len-1]`. -/
def swapRemove (l : List (List Nat)) (i : Nat) : List (List Nat) :=
  (l.set i (l.getD (l.length - 1) [])).take (l.length - 1)

/-- The child scan of the first copy of `MatchTags`: it iterates
`meta.Children` — the children of the HIT entry itself — skipping the
position equal to the cursor, positions missing from the index, and list
children, and swap-removes each first matching pattern.  `none` models a
panic inside the byte comparison. -/
def childLoopA (data : List Nat) (ix : List (Nat × IdxEntry)) (cursor : Nat) :
    List Nat → List (List Nat) → Option (List (List Nat))
  | [], checks => some checks
  | cp :: rest, checks =>
    if cp = cursor then childLoopA data ix cursor rest checks
    else
      match lookupAL cp ix with
      | none => childLoopA data ix cursor rest checks
      | some child =>
        if 0 ≤ child.listIndex then childLoopA data ix cursor rest checks
        else
          match scanChecks data ((cp : Int) - child.header.length) checks 0 with
          | none => none
          | some none => childLoopA data ix cursor rest checks
          | some (some i) => childLoopA data ix cursor rest (swapRemove checks i)

/-- Outcome of the `MatchTags` scanning loop (first copy). -/
inductive MLoopRes
| fuelOut
| crashed
| err (e : GoErr)
| ok (results : List (List (Nat × IdxEntry)))
deriving DecidableEq, Repr

/-- The scanning loop of the first copy of `Reader.MatchTags`: find the
first pattern's bytes, skip the header, require an index hit with a
non-negative parent, run the child scan, and emit the breadcrumbs of the
hit when the working list is exhausted. -/
def matchLoopA (data : List Nat) (ix : List (Nat × IdxEntry))
    (grp : List (List Nat)) : Nat → Nat → List (List (Nat × IdxEntry)) → MLoopRes
  | 0, _, _ => .fuelOut
  | fuel + 1, cursor, acc =>
    match grp with
    | [] => .crashed
    | grp0 :: rest =>
      if cursor ≤ data.length then
        match bytesIndex (data.drop cursor) grp0 with
        | none => .ok acc.reverse
        | some np =>
          let cursor := cursor + np
          match skipTagHeader data cursor with
          | .eof => matchLoopA data ix grp fuel cursor acc
          | .crashed => .crashed
          | .ok _ c' =>
            match lookupAL c' ix with
            | none => matchLoopA data ix grp fuel c' acc
            | some meta =>
              if meta.parent < 0 then .err .indexCorrupt
              else
                let checksRes :=
                  if rest.isEmpty then some rest
                  else childLoopA data ix c' meta.children rest
                match checksRes with
                | none => .crashed
                | some checks =>
                  if checks.isEmpty then
                    match breadcrumbs ix c' (fuel + 1) c' [] with
                    | .error _ => .err .crumbsFailed
                    | .ok crumbs => matchLoopA data ix grp fuel c' (crumbs :: acc)
                  else matchLoopA data ix grp fuel c' acc
      else .crashed

/-- Outcome of `MatchTags` including the reader after the deferred
cursor restoration. -/
inductive MatchARes
| fuelOut
| crashed (r : Reader)
| done (res : Except GoErr (List (List (Nat × IdxEntry)))) (r : Reader)
deriving Repr

/-- The first copy of `Reader.MatchTags` (`nbt/nbt.go` lines 679-756),
returning breadcrumb paths.  `prevCursor` is saved on entry and restored
by `defer` on every exit, including panic unwinding. -/
def matchTagsA (fuel : Nat) (r : Reader) (grp : List (List Nat)) : MatchARes :=
  match r.index with
  | none => .done (.error .notIndexed) r
  | some ix =>
    let prevCursor := r.cursor
    match matchLoopA r.data ix grp fuel 0 [] with
    | .fuelOut => .fuelOut
    | .crashed => .crashed { r with cursor := prevCursor }
    | .err e => .done (.error e) { r with cursor := prevCursor }
    | .ok results => .done (.ok results) { r with cursor := prevCursor }

end Nbt

namespace Nbt

/-- Go `IndexEntry` from `nbt/index.go` (second prototype): a heap node with
its payload position, a parent pointer (modelled as the parent's
position, sound because entry positions strictly increase during the
build and are therefore unique), children pointers, header and list
index. -/
structure EntB where
  pos : Nat
  parent : Option Nat
  children : List Nat
  header : TagHeader
  listIndex : Int
deriving DecidableEq, Repr

/-- Go `Reader` as used by the second prototype (`nbt/index.go` together
with the second copy of `nbt/nbt.go`): the heap of ALL entries created
during the build (parents of selectively indexed entries exist as heap
nodes even when they are not in the index map) and the list of positions
actually stored in `r.Index`. -/
structure FastReader where
  data : List Nat
  cursor : Nat
  index : Option (List (Nat × EntB) × List Nat)
deriving DecidableEq, Repr

/-- Heap lookup by position. -/
def lookupHeap (k : Nat) : List (Nat × EntB) → Option EntB
  | [] => none
  | (k', v) :: rest => if k = k' then some v else lookupHeap k rest

/-- Heap insert (positions are unique, so plain cons-or-replace). -/
def insertHeap (k : Nat) (v : EntB) : List (Nat × EntB) → List (Nat × EntB)
  | [] => [(k, v)]
  | (k', v') :: rest =>
    if k = k' then (k, v) :: rest else (k', v') :: insertHeap k v rest

/-- Go `parent.Children = append(parent.Children, ent)` through the heap
pointer. -/
def appendChildHeap (k : Nat) (pos : Nat) : List (Nat × EntB) → List (Nat × EntB)
  | [] => []
  | (k', v) :: rest =>
    if k = k' then (k', { v with children := v.children ++ [pos] }) :: rest
    else (k', v) :: appendChildHeap k pos rest

/-- Traversal state of the second prototype's index builder. -/
structure BState where
  cursor : Nat
  heap : List (Nat × EntB)
  idx : List Nat
deriving DecidableEq, Repr

/-- Outcome of the second prototype's index-builder routines. -/
inductive BRes
| fuelOut
| crashed (st : BState)
| ok (st : BState)
deriving DecidableEq, Repr

mutual

/-- Go `Reader.indexCompound` from `nbt/index.go`: `TagEnd` terminates
before any entry is created; every other child gets a heap entry whose
`Parent` is the parent entry, and the entry is stored in the index map
and appended to the parent's children only when `shouldIndex` holds. -/
def indexCompoundB (data : List Nat) (sel : List TagHeader) (fuel : Nat)
    (st : BState) (parent : Nat) (index : Bool) : BRes :=
  match fuel with
  | 0 => .fuelOut
  | fuel + 1 =>
    match readTagHeader data st.cursor with
    | .eof => .ok st
    | .crashed => .crashed st
    | .ok h _ c' =>
      if h.tagID = 0 then .ok ⟨c', st.heap, st.idx⟩
      else
        let shouldIndex := index || selMatches sel h
        let ent : EntB := ⟨c', some parent, [], h, -1⟩
        let heap := insertHeap c' ent st.heap
        let st2 : BState :=
          if shouldIndex then ⟨c', appendChildHeap parent c' heap, c' :: st.idx⟩
          else ⟨c', heap, st.idx⟩
        let stepRes :=
          if h.tagID = 10 then indexCompoundB data sel fuel st2 c' shouldIndex
          else if h.tagID = 9 then indexListB data sel fuel st2 c' shouldIndex
          else
            match skipTag data fuel h.tagID st2.cursor with
            | .ok c'' => .ok ⟨c'', st2.heap, st2.idx⟩
            | .crashed cc => .crashed ⟨cc, st2.heap, st2.idx⟩
            | .fuelOut => .fuelOut
        match stepRes with
        | .ok st3 => indexCompoundB data sel fuel st3 parent index
        | .crashed cc => .crashed cc
        | .fuelOut => .fuelOut
termination_by structural fuel

/-- Go `Reader.indexList` from `nbt/index.go`. -/
def indexListB (data : List Nat) (sel : List TagHeader) (fuel : Nat)
    (st : BState) (parent : Nat) (index : Bool) : BRes :=
  match fuel with
  | 0 => .fuelOut
  | fuel + 1 =>
    match readListTagHeader data st.cursor with
    | .crashedAt cc => .crashed ⟨cc, st.heap, st.idx⟩
    | .ok tagID len c' =>
      if tagID ≠ 10 ∧ tagID ≠ 9 then
        match skipTag data fuel 9 st.cursor with
        | .ok c'' => .ok ⟨c'', st.heap, st.idx⟩
        | .crashed cc => .crashed ⟨cc, st.heap, st.idx⟩
        | .fuelOut => .fuelOut
      else indexListElemsB data sel fuel tagID len 0 ⟨c', st.heap, st.idx⟩ parent index
termination_by structural fuel

/-- The element loop of `indexList` from `nbt/index.go`: the element
entry is created unconditionally; it is indexed and appended to the
parent's children only when `index` holds; descent always passes the
element entry as the parent. -/
def indexListElemsB (data : List Nat) (sel : List TagHeader) (fuel : Nat)
    (tagID : Nat) (n : Nat) (i : Nat) (st : BState) (parent : Nat)
    (index : Bool) : BRes :=
  match fuel with
  | 0 => .fuelOut
  | fuel + 1 =>
    match n with
    | 0 => .ok st
    | n + 1 =>
      let ent : EntB := ⟨st.cursor, some parent, [], ⟨tagID, []⟩, (i : Int)⟩
      let heap := insertHeap st.cursor ent st.heap
      let st2 : BState :=
        if index then
          ⟨st.cursor, appendChildHeap parent st.cursor heap, st.cursor :: st.idx⟩
        else ⟨st.cursor, heap, st.idx⟩
      let stepRes :=
        if tagID = 10 then indexCompoundB data sel fuel st2 st.cursor index
        else indexListB data sel fuel st2 st.cursor index
      match stepRes with
      | .ok st3 => indexListElemsB data sel fuel tagID n (i + 1) st3 parent index
      | .crashed cc => .crashed cc
      | .fuelOut => .fuelOut
termination_by structural fuel

end

/-- Go `Reader.FastPrepareIndex` from `nbt/index.go`: reads the root header
itself, enrolls the root entry (nil parent) at the post-header cursor,
and runs a full (non-selective) traversal of the root compound or list.
As in `PrepareIndex`, the cursor restoration does not run on the panic
path. -/
def fastPrepareIndex (fuel : Nat) (r : FastReader) :
    Option (FastReader × Option String) :=
  if r.index.isSome then some (r, none)
  else
    match readTagHeader r.data r.cursor with
    | .eof => some ({ r with index := some ([], []) }, some "EOF")
    | .crashed =>
      some ({ r with index := some ([], []) }, some "nbt: panic preparing index")
    | .ok h _ c' =>
      let root : EntB := ⟨c', none, [], h, -1⟩
      let st0 : BState := ⟨c', [(c', root)], [c']⟩
      if h.tagID = 10 then
        match indexCompoundB r.data [] fuel st0 c' true with
        | .ok st' => some ({ r with index := some (st'.heap, st'.idx) }, none)
        | .crashed st' =>
          some ({ r with cursor := st'.cursor, index := some (st'.heap, st'.idx) },
            some "nbt: panic preparing index")
        | .fuelOut => none
      else if h.tagID = 9 then
        match indexListB r.data [] fuel st0 c' true with
        | .ok st' => some ({ r with index := some (st'.heap, st'.idx) }, none)
        | .crashed st' =>
          some ({ r with cursor := st'.cursor, index := some (st'.heap, st'.idx) },
            some "nbt: panic preparing index")
        | .fuelOut => none
      else
        some ({ r with index := some (st0.heap, st0.idx) },
          some "nbt: invalid tag ID for fast prepare index, must be compound or list")

/-- Go `r.Index[pos]` for the second prototype: the entry is visible only
when its position was stored in the index map. -/
def lookupIndexB (heap : List (Nat × EntB)) (idx : List Nat) (pos : Nat) :
    Option EntB :=
  if pos ∈ idx then lookupHeap pos heap else none

/-- The child scan of the second copy of `MatchTags`: it iterates the
children of the HIT ENTRY'S PARENT (the hit's siblings), skipping the
hit itself and list children, comparing the bytes at
`child.Pos - child.Header.Length()`. -/
def childLoopB (data : List Nat) (heap : List (Nat × EntB)) (cursor : Nat) :
    List Nat → List (List Nat) → Option (List (List Nat))
  | [], checks => some checks
  | cp :: rest, checks =>
    match lookupHeap cp heap with
    | none => childLoopB data heap cursor rest checks
    | some child =>
      if child.pos = cursor ∨ 0 ≤ child.listIndex then
        childLoopB data heap cursor rest checks
      else
        match scanChecks data ((child.pos : Int) - child.header.length) checks 0 with
        | none => none
        | some none => childLoopB data heap cursor rest checks
        | some (some i) => childLoopB data heap cursor rest (swapRemove checks i)

/-- Outcome of the `MatchTags` scanning loop (second copy): qualifying
hits are reported as the positions of their index entries. -/
inductive MLoopBRes
| fuelOut
| crashed
| err (e : GoErr)
| ok (results : List Nat)
deriving DecidableEq, Repr

/-- The scanning loop of the second copy of `Reader.MatchTags`. -/
def matchLoopB (data : List Nat) (heap : List (Nat × EntB)) (idx : List Nat)
    (grp : List (List Nat)) : Nat → Nat → List Nat → MLoopBRes
  | 0, _, _ => .fuelOut
  | fuel + 1, cursor, acc =>
    match grp with
    | [] => .crashed
    | grp0 :: rest =>
      if cursor ≤ data.length then
        match bytesIndex (data.drop cursor) grp0 with
        | none => .ok acc.reverse
        | some np =>
          let cursor := cursor + np
          match skipTagHeader data cursor with
          | .eof => matchLoopB data heap idx grp fuel cursor acc
          | .crashed => .crashed
          | .ok _ c' =>
            match lookupIndexB heap idx c' with
            | none => matchLoopB data heap idx grp fuel c' acc
            | some meta =>
              match meta.parent with
              | none => .err .indexCorrupt
              | some pp =>
                match lookupHeap pp heap with
                | none => .crashed
                | some parentEnt =>
                  let checksRes :=
                    if rest.isEmpty then some rest
                    else childLoopB data heap c' parentEnt.children rest
                  match checksRes with
                  | none => .crashed
                  | some checks =>
                    if checks.isEmpty then matchLoopB data heap idx grp fuel c' (c' :: acc)
                    else matchLoopB data heap idx grp fuel c' acc
      else .crashed

/-- Outcome of the second copy of `MatchTags` including the reader after
the deferred cursor restoration. -/
inductive MatchBRes
| fuelOut
| crashed (r : FastReader)
| done (res : Except GoErr (List Nat)) (r : FastReader)
deriving Repr

/-- The second copy of `Reader.MatchTags` (`nbt/nbt.go` lines
1419-1487), returning the qualifying index entries themselves (modelled
by their positions). -/
def matchTagsB (fuel : Nat) (r : FastReader) (grp : List (List Nat)) : MatchBRes :=
  match r.index with
  | none => .done (.error .notIndexed) r
  | some ⟨heap, idx⟩ =>
    let prevCursor := r.cursor
    match matchLoopB r.data heap idx grp fuel 0 [] with
    | .fuelOut => .fuelOut
    | .crashed => .crashed { r with cursor := prevCursor }
    | .err e => .done (.error e) { r with cursor := prevCursor }
    | .ok results => .done (.ok results) { r with cursor := prevCursor }

end Nbt

namespace Nbt

/-- Modelled from the spec (for claim comparison only): the cursor
positions of ALL occurrences of `pat` in `data`, which the spec says
`SimpleMatch(pat, count)` returns when `count < 0`. -/
def specAllOccurrences (data pat : List Nat) : List Nat :=
  (List.range (data.length + 1)).filter fun i =>
    decide ((data.drop i).take pat.length = pat)

/-- The blob of the `readCompound` claim: the contents of a compound
holding `TagByte "q" = 0`, `TagInt "n" = 42`, `TagEnd`. -/
def c1blob : List Nat := [1, 0, 1, 113, 0, 3, 0, 1, 110, 0, 0, 0, 42, 0]

/-- The blob of the index-invariant claim: a single `TagInt "n" = 42`. -/
def c4blob : List Nat := [3, 0, 1, 110, 0, 0, 0, 42]

/-- The selection used for the index-invariant claim: `(TagInt, "n")`. -/
def c4sel : List TagHeader := [⟨3, [110]⟩]

/-- The blob of the `MatchTags` claim: a compound named `te` holding
`TagInt "x" = 7` and `TagInt "y" = 8`. -/
def c5blob : List Nat :=
  [10, 0, 2, 116, 101, 3, 0, 1, 120, 0, 0, 0, 7, 3, 0, 1, 121, 0, 0, 0, 8, 0]

/-- Encoded header of `TagInt "x"`. -/
def c5hdrX : List Nat := [3, 0, 1, 120]

/-- Encoded header of `TagInt "y"`. -/
def c5hdrY : List Nat := [3, 0, 1, 121]

/-- The reader of the `MatchTags` claim indexed by the first prototype's
selective `PrepareIndex` with selection `(TagCompound, "te")`. -/
def c5readerA : Reader :=
  match prepareIndex 64 (newReader c5blob) [⟨10, [116, 101]⟩] with
  | some (r, _) => r
  | none => newReader []

/-- The reader of the `MatchTags` claim indexed by the second
prototype's full `FastPrepareIndex`. -/
def c5readerB : FastReader :=
  match fastPrepareIndex 64 ⟨c5blob, 0, none⟩ with
  | some (r, _) => r
  | none => ⟨[], 0, none⟩

/-- A concrete indexed reader (cursor deliberately away from 0) for
exercising the frame property of the match routines. -/
def c10reader : Reader :=
  ⟨[3, 0, 1, 110, 0, 0, 0, 42], 2,
    some [(0, rootEntry), (4, ⟨-1, [], ⟨3, [110]⟩, -1⟩)]⟩

end Nbt

namespace Nbt

/-- Per-entry invariant over an index map `ix`: a list child has an empty
header name, and the parent is either nil (`-1`) or a position present
in the map. -/
def entryInv (ix : List (Nat × IdxEntry)) (e : IdxEntry) : Prop :=
  (0 ≤ e.listIndex → e.header.name = []) ∧
  (e.parent = -1 ∨ (0 ≤ e.parent ∧ (lookupAL e.parent.toNat ix).isSome = true))

/-- Index-map invariant: every entry reachable by lookup satisfies
`entryInv`. -/
def indexInv (ix : List (Nat × IdxEntry)) : Prop :=
  ∀ p e, lookupAL p ix = some e → entryInv ix e

/-- Key monotonicity between two index maps: every position present in
the first is present in the second. -/
def keysSub (ix ix2 : List (Nat × IdxEntry)) : Prop :=
  ∀ k, (lookupAL k ix).isSome = true → (lookupAL k ix2).isSome = true

/-- Specification of a successful `indexCompound` run at a given fuel:
it preserves the index invariant and only adds positions. -/
def compoundOK (data : List Nat) (sel : List TagHeader) (fuel : Nat) : Prop :=
  ∀ st parent index st', indexInv st.index →
    (index = true → (lookupAL parent st.index).isSome = true) →
    indexCompound data sel fuel st parent index = .ok st' →
    indexInv st'.index ∧ keysSub st.index st'.index

/-- Specification of a successful `indexLoop` run. -/
def loopOK (data : List Nat) (sel : List TagHeader) (fuel : Nat) : Prop :=
  ∀ st parent index parNN st', indexInv st.index →
    (parNN = true → (lookupAL parent st.index).isSome = true) →
    indexLoop data sel fuel st parent index parNN = .ok st' →
    indexInv st'.index ∧ keysSub st.index st'.index

/-- Specification of a successful `indexList` run. -/
def listOK (data : List Nat) (sel : List TagHeader) (fuel : Nat) : Prop :=
  ∀ st parent index st', indexInv st.index →
    indexList data sel fuel st parent index = .ok st' →
    indexInv st'.index ∧ keysSub st.index st'.index

/-- Specification of a successful `indexListElems` run. -/
def elemsOK (data : List Nat) (sel : List TagHeader) (fuel : Nat) : Prop :=
  ∀ tagID n i st parent index parFound st', indexInv st.index →
    (parFound = true → (lookupAL parent st.index).isSome = true) →
    indexListElems data sel fuel tagID n i st parent index parFound = .ok st' →
    indexInv st'.index ∧ keysSub st.index st'.index

end Nbt

namespace Anvil

/-- Euclidean-division composition for the two nonneg divisors used by
the coordinate shifts. -/
theorem ediv_sixteen_comp (x : Int) : x / 16 / 32 = x / 512 := by
  obtain ⟨q, r, hx, hr0, hr⟩ : ∃ q r, x = 512 * q + r ∧ 0 ≤ r ∧ r < 512 :=
    ⟨x / 512, x % 512, by rw [Int.ediv_add_emod], Int.emod_nonneg _ (by norm_num),
      Int.emod_lt_of_pos _ (by norm_num)⟩
  subst hx
  rw [show (512 : Int) * q + r = r + 16 * (32 * q) by ring,
    Int.add_mul_ediv_left _ _ (by norm_num : (16 : Int) ≠ 0),
    Int.add_mul_ediv_left _ _ (by norm_num : (32 : Int) ≠ 0)]
  have h1 : (0 : Int) ≤ r / 16 := Int.ediv_nonneg hr0 (by norm_num)
  have h2 : r / 16 < 32 := by
    apply Int.ediv_lt_of_lt_mul (by norm_num)
    omega
  rw [Int.ediv_eq_zero_of_lt h1 h2,
    show r + 16 * (32 * q) = r + 512 * q by ring,
    Int.add_mul_ediv_left _ _ (by norm_num : (512 : Int) ≠ 0),
    Int.ediv_eq_zero_of_lt hr0 hr]

/-- An arithmetic shift by 4 followed by one by 5 is a shift by 9. -/
theorem sar_four_five (x : Int) : sar (sar x 4) 5 = sar x 9 := by
  unfold sar
  rw [Int.fdiv_eq_ediv _ (by norm_num), Int.fdiv_eq_ediv _ (by norm_num),
    Int.fdiv_eq_ediv _ (by norm_num)]
  norm_num
  exact ediv_sixteen_comp x

end Anvil

/-- C6: the claim says `Coord.Chunk()` right-shifts all three axes by 4,
with `Coord{500, 64, −500}.Chunk() = Chunk{31, 4, −32}` (as the repo's
own test `TestCoord` asserts).  The code populates only `X` and `Z`, so
`Y` is `0`, not `64 >> 4 = 4`: evaluating the embedded code at the
claimed input yields `Chunk{31, 0, −32}`. -/
theorem c6_chunk_drops_y :
    Anvil.Coord.chunk ⟨500, 64, -500⟩ = ⟨31, 0, -32⟩ ∧
    (Anvil.Coord.chunk ⟨500, 64, -500⟩).Y ≠ 4 := by
  constructor
  · show ({ X := Anvil.sar 500 4, Y := 0, Z := Anvil.sar (-500) 4 } : Anvil.Chunk) = _
    decide
  · show (0 : Int) ≠ 4
    decide

/-- C7: voxel → region as the composition of the shift-by-4 and
shift-by-5 conversions equals an arithmetic shift by 9, which is the
second copy's `Coord.Region`; the first copy's `>> 11` variant differs
from the composition at `Coord{1024, 0, 0}` (it yields `Region{0, 0}`
instead of `Region{2, 0}`). -/
theorem c7_region_is_composition :
    (∀ c : Anvil.Coord, Anvil.Coord.regionShift9 c = (Anvil.Coord.chunk c).region) ∧
    Anvil.Coord.regionShift11 ⟨1024, 0, 0⟩ ≠ (Anvil.Coord.chunk ⟨1024, 0, 0⟩).region := by
  constructor
  · intro c
    show ({ X := Anvil.sar c.X 9, Z := Anvil.sar c.Z 9 } : Anvil.Region) =
      { X := Anvil.sar (Anvil.sar c.X 4) 5, Z := Anvil.sar (Anvil.sar c.Z 4) 5 }
    rw [Anvil.sar_four_five, Anvil.sar_four_five]
  · decide

/-- C2 (counterexample): with the locator slot pointing at sector 0 and
the file bytes `[0,0,0,3, 2, 0xAA, 0xBB, 0xCC]` (length `L = 3`,
compression flag 2), `readRawChunk` returns all `L = 3` bytes after the
5-byte chunk header, not the `L − 1 = 2` bytes the claim says. -/
theorem c2_counterexample :
    Anvil.readRawChunk [0, 0, 0] [0, 0, 0, 3, 2, 170, 187, 204] 0 =
      .ok [170, 187, 204] ∧
    Anvil.specRawChunkPayload [0, 0, 0] [0, 0, 0, 3, 2, 170, 187, 204] 0 =
      [170, 187] ∧
    ([170, 187, 204] : List Nat) ≠ [170, 187] := by
  refine ⟨rfl, rfl, by decide⟩

/-- C2 (amended): `ReadChunk`'s raw read seeks to `slotPtr << 12`, reads
the 5-byte payload header whose first four bytes are the big-endian
length `L` (the fifth being the compression flag), and then reads
exactly `L` further bytes — one more than the `L − 1` compressed bytes
of the wire format. -/
theorem c2_amended (header file : List Nat) (offset : Nat)
    (hfit : Anvil.slotPtr header offset * 4096 + 5 +
      Nbt.be32 file (Anvil.slotPtr header offset * 4096) ≤ file.length) :
    Anvil.readRawChunk header file offset =
      .ok ((file.drop (Anvil.slotPtr header offset * 4096 + 5)).take
        (Nbt.be32 file (Anvil.slotPtr header offset * 4096))) := by
  show (if Anvil.slotPtr header offset * 4096 + 5 ≤ file.length then
      if Anvil.slotPtr header offset * 4096 + 5 +
          Nbt.be32 file (Anvil.slotPtr header offset * 4096) ≤ file.length then
        Except.ok ((file.drop (Anvil.slotPtr header offset * 4096 + 5)).take
          (Nbt.be32 file (Anvil.slotPtr header offset * 4096)))
      else .error ()
    else .error ()) = _
  rw [if_pos (by omega), if_pos hfit]

/-- C2 (witness for the amended theorem). -/
theorem c2_amended_witness :
    Anvil.readRawChunk [0, 0, 0] [0, 0, 0, 3, 2, 170, 187, 204] 0 =
      .ok [170, 187, 204] :=
  c2_amended [0, 0, 0] [0, 0, 0, 3, 2, 170, 187, 204] 0 (by decide)

/-- C1: decoding a compound through a name-to-destination mapping does
NOT skip the payload of a child whose name is absent from the mapping:
`readCompound` just `continue`s, so the next header is read from inside
that child's payload.  On the contents `[Byte "q" = 0x00, Int "n" = 42,
End]` with mapping `{"n" ↦ int}`, the payload byte `0x00` of `q` is
misread as `TagEnd` and the loop returns at cursor 5 with `n` never
decoded, instead of skipping to cursor 5+1 and decoding `n = 42` (which
the embedded `ReadImmediate` would produce at cursor 9, as the second
conjunct shows). -/
theorem c1_unmapped_child_not_skipped :
    Nbt.readCompoundStruct Nbt.c1blob 64 [([110], .dInt)] 0 0 =
      .ok .vStructDone 5 5 ∧
    Nbt.readImmediate Nbt.c1blob 64 3 .dInt 9 = .ok (.vInt 42) 4 13 ∧
    (5 : Nat) ≠ 14 := by
  refine ⟨rfl, rfl, by decide⟩

/-- C3 (counterexample): on the blob `[0x08, 0x00, 0x01, 'a']` — a
`TagString "a"` header with no payload bytes — the index traversal
panics inside `SkipTag(TagString)` with the cursor at 4.  `PrepareIndex`
surfaces the `"nbt: panic preparing index"` error, but the returned
cursor is 4, not the pre-call value 0: the `r.cursor = savedCursor`
restoration is skipped on the panic path. -/
theorem c3_counterexample :
    Nbt.prepareIndex 64 (Nbt.newReader [8, 0, 1, 97]) [] =
      some (⟨[8, 0, 1, 97], 4, some [(0, Nbt.rootEntry)]⟩,
        some "nbt: panic preparing index") ∧
    (Nbt.newReader [8, 0, 1, 97]).cursor = 0 ∧ (4 : Nat) ≠ 0 := by
  refine ⟨rfl, rfl, by decide⟩

/-- C3 (amended): a panic during the traversal is caught and surfaced as
the `"nbt: panic preparing index"` error, but the cursor is left at the
panic point (and the partially built index stays assigned); only a
normally returning traversal gets the cursor restored to its pre-call
value. -/
theorem c3_amended (fuel : Nat) (r : Nbt.Reader) (sel : List Nbt.TagHeader)
    (st : Nbt.IState) (hidx : r.index = none) :
    (Nbt.indexCompound r.data sel fuel ⟨r.cursor, [(0, Nbt.rootEntry)]⟩ 0 false =
        .crashed st →
      Nbt.prepareIndex fuel r sel =
        some ({ r with cursor := st.cursor, index := some st.index },
          some "nbt: panic preparing index")) ∧
    (Nbt.indexCompound r.data sel fuel ⟨r.cursor, [(0, Nbt.rootEntry)]⟩ 0 false =
        .ok st →
      Nbt.prepareIndex fuel r sel = some ({ r with index := some st.index }, none)) := by
  unfold Nbt.prepareIndex
  rw [hidx]
  constructor
  · intro h
    simp [h]
  · intro h
    simp [h]

/-- C3 (witness for the amended theorem). -/
theorem c3_amended_witness :
    Nbt.prepareIndex 64 (Nbt.newReader [8, 0, 1, 97]) [] =
      some (⟨[8, 0, 1, 97], 4, some [(0, Nbt.rootEntry)]⟩,
        some "nbt: panic preparing index") :=
  (c3_amended 64 (Nbt.newReader [8, 0, 1, 97]) [] ⟨4, [(0, Nbt.rootEntry)]⟩ rfl).1 rfl

set_option maxHeartbeats 2000000 in
/-- C5: the claim describes sibling checking — the remaining patterns
are matched against the other children of the hit entry's parent.  The
entry-returning `MatchTags` (second copy) does exactly that and
qualifies the hit on `Int "x"` through its sibling `Int "y"`; the
breadcrumb-returning `MatchTags` (first copy) instead iterates the hit
entry's OWN children — empty for a scalar hit — so the sibling pattern
is never consumed and no result is emitted. -/
theorem c5_matchtags_children_vs_siblings :
    Nbt.matchTagsA 64 Nbt.c5readerA [Nbt.c5hdrX, Nbt.c5hdrY] =
      .done (.ok []) Nbt.c5readerA ∧
    Nbt.matchTagsB 64 Nbt.c5readerB [Nbt.c5hdrX, Nbt.c5hdrY] =
      .done (.ok [9]) Nbt.c5readerB := by
  refine ⟨rfl, rfl⟩

namespace Nbt

theorem lookupAL_insertAL (k k' : Nat) (v : IdxEntry) (ix : List (Nat × IdxEntry)) :
    lookupAL k' (insertAL k v ix) = if k' = k then some v else lookupAL k' ix := by
  induction ix with
  | nil => simp [insertAL, lookupAL]
  | cons hd tl ih =>
    obtain ⟨k0, v0⟩ := hd
    by_cases hk : k = k0
    · simp only [insertAL, if_pos hk, lookupAL]
      by_cases hk' : k' = k
      · rw [if_pos hk', if_pos hk']
      · rw [if_neg hk', if_neg hk', if_neg (by omega)]
    · simp only [insertAL, if_neg hk, lookupAL]
      by_cases hk0 : k' = k0
      · rw [if_pos hk0, if_neg (by omega), if_pos hk0]
      · rw [if_neg hk0, if_neg hk0, ih]

theorem lookupAL_appendChild (pk cp k : Nat) (ix : List (Nat × IdxEntry)) :
    lookupAL k (appendChild pk cp ix) =
      if k = pk then
        (lookupAL k ix).map fun e => { e with children := e.children ++ [cp] }
      else lookupAL k ix := by
  induction ix with
  | nil => simp [appendChild, lookupAL]
  | cons hd tl ih =>
    obtain ⟨k0, v0⟩ := hd
    by_cases hp : pk = k0
    · simp only [appendChild, if_pos hp, lookupAL]
      by_cases hk : k = k0
      · rw [if_pos hk, if_pos (by omega), if_pos hk]
        rfl
      · rw [if_neg hk, if_neg (by omega), if_neg hk]
    · simp only [appendChild, if_neg hp, lookupAL]
      by_cases hk : k = k0
      · rw [if_pos hk, if_neg (by omega), if_pos hk]
      · rw [if_neg hk, if_neg hk, ih]

theorem keysSub_refl (ix : List (Nat × IdxEntry)) : keysSub ix ix := fun _ h => h

theorem keysSub_trans {a b c : List (Nat × IdxEntry)}
    (h1 : keysSub a b) (h2 : keysSub b c) : keysSub a c :=
  fun k hk => h2 k (h1 k hk)

theorem keysSub_insertAL (k : Nat) (v : IdxEntry) (ix : List (Nat × IdxEntry)) :
    keysSub ix (insertAL k v ix) := by
  intro k' h
  rw [lookupAL_insertAL]
  by_cases hk : k' = k
  · rw [if_pos hk]; rfl
  · rw [if_neg hk]; exact h

theorem keysSub_appendChild (pk cp : Nat) (ix : List (Nat × IdxEntry)) :
    keysSub ix (appendChild pk cp ix) := by
  intro k h
  rw [lookupAL_appendChild]
  by_cases hk : k = pk
  · rw [if_pos hk]
    rcases Option.isSome_iff_exists.1 h with ⟨e, he⟩
    rw [he]
    rfl
  · rw [if_neg hk]; exact h

theorem entryInv_mono {ix ix2 : List (Nat × IdxEntry)} (hsub : keysSub ix ix2)
    {e : IdxEntry} (h : entryInv ix e) : entryInv ix2 e :=
  ⟨h.1, h.2.elim Or.inl fun hp => Or.inr ⟨hp.1, hsub _ hp.2⟩⟩

theorem indexInv_insertAL (ix : List (Nat × IdxEntry)) (k : Nat) (ent : IdxEntry)
    (hinv : indexInv ix) (hent : entryInv ix ent) : indexInv (insertAL k ent ix) := by
  intro p e hp
  rw [lookupAL_insertAL] at hp
  by_cases hpk : p = k
  · rw [if_pos hpk] at hp
    cases hp
    exact entryInv_mono (keysSub_insertAL k ent ix) hent
  · rw [if_neg hpk] at hp
    exact entryInv_mono (keysSub_insertAL k ent ix) (hinv _ _ hp)

theorem indexInv_appendChild (pk cp : Nat) (ix : List (Nat × IdxEntry))
    (hinv : indexInv ix) : indexInv (appendChild pk cp ix) := by
  intro p e hp
  rw [lookupAL_appendChild] at hp
  by_cases hpk : p = pk
  · rw [if_pos hpk] at hp
    rcases Option.map_eq_some'.1 hp with ⟨e0, he0, rfl⟩
    have h0 := hinv _ _ he0
    exact entryInv_mono (keysSub_appendChild pk cp ix) ⟨h0.1, h0.2⟩
  · rw [if_neg hpk] at hp
    exact entryInv_mono (keysSub_appendChild pk cp ix) (hinv _ _ hp)

end Nbt

namespace Nbt

theorem record_inv_t (ix : List (Nat × IdxEntry)) (parent c : Nat) (h0 : TagHeader)
    (hinv : indexInv ix) (hpar : (lookupAL parent ix).isSome = true) :
    indexInv (appendChild parent c (insertAL c ⟨(parent : Int), [], h0, -1⟩ ix)) ∧
    keysSub ix (appendChild parent c (insertAL c ⟨(parent : Int), [], h0, -1⟩ ix)) ∧
    (lookupAL c (appendChild parent c
      (insertAL c ⟨(parent : Int), [], h0, -1⟩ ix))).isSome = true := by
  have hent : entryInv ix ⟨(parent : Int), [], h0, -1⟩ := by
    refine ⟨fun habs => absurd habs (by norm_num), Or.inr ⟨Int.ofNat_nonneg _, ?_⟩⟩
    simpa using hpar
  have h1 := indexInv_insertAL ix c _ hinv hent
  refine ⟨indexInv_appendChild _ _ _ h1,
    keysSub_trans (keysSub_insertAL c _ ix) (keysSub_appendChild parent c _), ?_⟩
  apply keysSub_appendChild parent c _ c
  rw [lookupAL_insertAL]
  simp

theorem record_inv_f (ix : List (Nat × IdxEntry)) (c : Nat) (h0 : TagHeader)
    (hinv : indexInv ix) :
    indexInv (insertAL c ⟨-1, [], h0, -1⟩ ix) ∧
    keysSub ix (insertAL c ⟨-1, [], h0, -1⟩ ix) ∧
    (lookupAL c (insertAL c ⟨-1, [], h0, -1⟩ ix)).isSome = true := by
  have hent : entryInv ix ⟨-1, [], h0, -1⟩ :=
    ⟨fun habs => absurd habs (by norm_num), Or.inl rfl⟩
  refine ⟨indexInv_insertAL ix c _ hinv hent, keysSub_insertAL c _ ix, ?_⟩
  rw [lookupAL_insertAL]
  simp

theorem record_list_inv (ix : List (Nat × IdxEntry)) (parent c tagID i : Nat)
    (hinv : indexInv ix) (hpar : (lookupAL parent ix).isSome = true) :
    indexInv (appendChild parent c
      (insertAL c ⟨(parent : Int), [], ⟨tagID, []⟩, (i : Int)⟩ ix)) ∧
    keysSub ix (appendChild parent c
      (insertAL c ⟨(parent : Int), [], ⟨tagID, []⟩, (i : Int)⟩ ix)) ∧
    (lookupAL c (appendChild parent c
      (insertAL c ⟨(parent : Int), [], ⟨tagID, []⟩, (i : Int)⟩ ix))).isSome = true := by
  have hent : entryInv ix ⟨(parent : Int), [], ⟨tagID, []⟩, (i : Int)⟩ := by
    refine ⟨fun _ => rfl, Or.inr ⟨Int.ofNat_nonneg _, ?_⟩⟩
    simpa using hpar
  have h1 := indexInv_insertAL ix c _ hinv hent
  refine ⟨indexInv_appendChild _ _ _ h1,
    keysSub_trans (keysSub_insertAL c _ ix) (keysSub_appendChild parent c _), ?_⟩
  apply keysSub_appendChild parent c _ c
  rw [lookupAL_insertAL]
  simp

end Nbt


namespace Nbt

/-- Continuation step of the `indexLoop` proof: after the header has
been read and the record step produced `st2`, a successful rest of the
loop preserves the invariant and only adds keys. -/
theorem indexLoop_cont (data : List Nat) (sel : List TagHeader) (fuel : Nat)
    (parent : Nat) (index parNN : Bool) (st2 : IState) (c' : Nat) (t : Nat)
    (sI : Bool) (st' : IState)
    (ihC : compoundOK data sel fuel) (ihL : loopOK data sel fuel)
    (ihLi : listOK data sel fuel)
    (hinv2 : indexInv st2.index)
    (hpar2 : parNN = true → (lookupAL parent st2.index).isSome = true)
    (hsi : sI = true → (lookupAL c' st2.index).isSome = true)
    (h : (if t = 0 then XRes.ok st2
      else if t = 10 then
        match indexCompound data sel fuel st2 c' sI with
        | .ok st3 => indexLoop data sel fuel st3 parent index parNN
        | .crashed cc => .crashed cc
        | .fuelOut => .fuelOut
      else if t = 9 then
        match indexList data sel fuel st2 c' sI with
        | .ok st3 => indexLoop data sel fuel st3 parent index parNN
        | .crashed cc => .crashed cc
        | .fuelOut => .fuelOut
      else
        match skipTag data fuel t st2.cursor with
        | .ok c'' => indexLoop data sel fuel ⟨c'', st2.index⟩ parent index parNN
        | .crashed cc => .crashed ⟨cc, st2.index⟩
        | .fuelOut => .fuelOut) = .ok st') :
    indexInv st'.index ∧ keysSub st2.index st'.index := by
  split at h
  · injection h with h'
    subst h'
    exact ⟨hinv2, keysSub_refl _⟩
  · split at h
    · split at h
      next st3 heq =>
        have h3 := ihC st2 c' sI st3 hinv2 hsi heq
        have h4 := ihL st3 parent index parNN st' h3.1
          (fun hb => h3.2 _ (hpar2 hb)) h
        exact ⟨h4.1, keysSub_trans h3.2 h4.2⟩
      next cc heq => exact XRes.noConfusion h
      next heq => exact XRes.noConfusion h
    · split at h
      · split at h
        next st3 heq =>
          have h3 := ihLi st2 c' sI st3 hinv2 heq
          have h4 := ihL st3 parent index parNN st' h3.1
            (fun hb => h3.2 _ (hpar2 hb)) h
          exact ⟨h4.1, keysSub_trans h3.2 h4.2⟩
        next cc heq => exact XRes.noConfusion h
        next heq => exact XRes.noConfusion h
      · split at h
        next c'' heq =>
          have h4 := ihL ⟨c'', st2.index⟩ parent index parNN st' hinv2 hpar2 h
          exact ⟨h4.1, h4.2⟩
        next cc heq => exact XRes.noConfusion h
        next heq => exact XRes.noConfusion h

end Nbt


namespace Nbt

/-- Invariant preservation for the selective index builder of the first
prototype, by simultaneous induction on the fuel: a successful run keeps
every recorded entry's parent either nil or present in the map, keeps
list children unnamed, and never removes positions. -/
theorem indexer_inv (data : List Nat) (sel : List TagHeader) : ∀ fuel : Nat,
    compoundOK data sel fuel ∧ loopOK data sel fuel ∧
    listOK data sel fuel ∧ elemsOK data sel fuel := by
  intro fuel
  induction fuel with
  | zero =>
    refine ⟨?_, ?_, ?_, ?_⟩
    · intro st parent index st' _ _ h
      simp [indexCompound] at h
    · intro st parent index parNN st' _ _ h
      simp [indexLoop] at h
    · intro st parent index st' _ h
      simp [indexList] at h
    · intro tagID n i st parent index parFound st' _ _ h
      simp [indexListElems] at h
  | succ fuel ih =>
    obtain ⟨ihC, ihL, ihLi, ihE⟩ := ih
    refine ⟨?_, ?_, ?_, ?_⟩
    · -- indexCompound delegates to the loop with parNN = index && present
      intro st parent index st' hinv hpar h
      simp only [indexCompound] at h
      refine ihL _ _ _ _ _ hinv (fun hb => ?_) h
      simp only [Bool.and_eq_true] at hb
      exact hb.2
    · -- indexLoop
      intro st parent index parNN st' hinv hpar h
      simp only [indexLoop] at h
      split at h
      · injection h with h'
        subst h'
        exact ⟨hinv, keysSub_refl _⟩
      · exact XRes.noConfusion h
      next h0 _u c' _heq =>
        by_cases hsi : (index || selMatches sel h0) = true
        · rw [if_pos hsi] at h
          by_cases hpn : parNN = true
          · rw [if_pos hpn, if_pos hpn] at h
            have hrec := record_inv_t st.index parent c' h0 hinv (hpar hpn)
            have hc := indexLoop_cont data sel fuel parent index parNN
              ⟨c', appendChild parent c'
                (insertAL c' ⟨(parent : Int), [], h0, -1⟩ st.index)⟩ c'
              h0.tagID (index || selMatches sel h0) st' ihC ihL ihLi hrec.1
              (fun hb => hrec.2.1 _ (hpar hb)) (fun _ => hrec.2.2) h
            exact ⟨hc.1, keysSub_trans hrec.2.1 hc.2⟩
          · rw [if_neg hpn, if_neg hpn] at h
            have hrec := record_inv_f st.index c' h0 hinv
            have hc := indexLoop_cont data sel fuel parent index parNN
              ⟨c', insertAL c' ⟨-1, [], h0, -1⟩ st.index⟩ c'
              h0.tagID (index || selMatches sel h0) st' ihC ihL ihLi hrec.1
              (fun hb => absurd hb hpn) (fun _ => hrec.2.2) h
            exact ⟨hc.1, keysSub_trans hrec.2.1 hc.2⟩
        · rw [if_neg hsi] at h
          have hc := indexLoop_cont data sel fuel parent index parNN
            ⟨c', st.index⟩ c' h0.tagID (index || selMatches sel h0) st'
            ihC ihL ihLi hinv (fun hb => hpar hb) (fun hb => absurd hb hsi) h
          exact ⟨hc.1, hc.2⟩
    · -- indexList
      intro st parent index st' hinv h
      simp only [indexList] at h
      split at h
      · exact XRes.noConfusion h
      next tagID len c' _heq =>
        split at h
        · split at h
          next c'' _heq2 =>
            injection h with h'
            subst h'
            exact ⟨hinv, keysSub_refl _⟩
          · exact XRes.noConfusion h
          · exact XRes.noConfusion h
        · exact ihE tagID len 0 ⟨c', st.index⟩ parent index
            ((lookupAL parent st.index).isSome) st' hinv (fun hb => hb) h
    · -- indexListElems
      intro tagID n i st parent index parFound st' hinv hpar h
      simp only [indexListElems] at h
      split at h
      · injection h with h'
        subst h'
        exact ⟨hinv, keysSub_refl _⟩
      next n' =>
        split at h
        · exact XRes.noConfusion h
        next hg =>
          by_cases hidx : index = true
          · have hpf : parFound = true := by
              cases hpfv : parFound
              · rw [hidx, hpfv] at hg
                simp at hg
              · rfl
            simp only [hidx, hpf] at h
            have hrec := record_list_inv st.index parent st.cursor tagID i hinv (hpar hpf)
            split at h
            next st4 heq =>
              by_cases ht : tagID = 10
              · rw [if_pos ht] at heq
                have h3 := ihC _ st.cursor true st4 hrec.1 (fun _ => hrec.2.2) heq
                have h4 := ihE tagID n' (i + 1) st4 parent true true st' h3.1
                  (fun _ => h3.2 _ (hrec.2.1 _ (hpar hpf))) h
                exact ⟨h4.1, keysSub_trans hrec.2.1 (keysSub_trans h3.2 h4.2)⟩
              · rw [if_neg ht] at heq
                have h3 := ihLi _ st.cursor true st4 hrec.1 heq
                have h4 := ihE tagID n' (i + 1) st4 parent true true st' h3.1
                  (fun _ => h3.2 _ (hrec.2.1 _ (hpar hpf))) h
                exact ⟨h4.1, keysSub_trans hrec.2.1 (keysSub_trans h3.2 h4.2)⟩
            next cc heq => exact XRes.noConfusion h
            next heq => exact XRes.noConfusion h
          · have hif : index = false := by
              cases index
              · rfl
              · exact absurd rfl hidx
            simp only [hif] at h
            split at h
            next st4 heq =>
              by_cases ht : tagID = 10
              · rw [if_pos ht] at heq
                have h3 := ihC _ st.cursor false st4 hinv
                  (fun hb => absurd hb Bool.false_ne_true) heq
                have h4 := ihE tagID n' (i + 1) st4 parent false parFound st' h3.1
                  (fun hb => h3.2 _ (hpar hb)) h
                exact ⟨h4.1, keysSub_trans h3.2 h4.2⟩
              · rw [if_neg ht] at heq
                have h3 := ihLi _ st.cursor false st4 hinv heq
                have h4 := ihE tagID n' (i + 1) st4 parent false parFound st' h3.1
                  (fun hb => h3.2 _ (hpar hb)) h
                exact ⟨h4.1, keysSub_trans h3.2 h4.2⟩
            next cc heq => exact XRes.noConfusion h
            next heq => exact XRes.noConfusion h

end Nbt

namespace Nbt

theorem indexInv_root : indexInv [(0, rootEntry)] := by
  intro p e hp
  simp only [lookupAL] at hp
  by_cases hp0 : p = 0
  · rw [if_pos hp0] at hp
    cases hp
    exact ⟨fun habs => absurd habs (by decide), Or.inl rfl⟩
  · rw [if_neg hp0] at hp
    exact absurd hp (by simp)

end Nbt

/-- C4 (counterexample): a successful selective `PrepareIndex` over the
blob `TagInt "n" = 42` with selection `(TagInt, "n")` records the entry
at position 4 — not the synthetic root at 0 — with `Parent: -1` (null),
because the matched tag's enclosing scope was not itself indexed, so the
`par != nil` branch was not taken. -/
theorem c4_counterexample :
    (Nbt.prepareIndex 64 (Nbt.newReader Nbt.c4blob) Nbt.c4sel).map
      (fun p => (p.2, (Nbt.lookupAL 4 (p.1.index.getD [])).map Nbt.IdxEntry.parent)) =
      some (none, some (-1)) ∧ (4 : Nat) ≠ 0 := by
  refine ⟨rfl, by decide⟩

/-- C4 (amended): after a successful `PrepareIndex` on an unindexed
reader with any selection set, every recorded entry has either a null
parent (`-1`, like the synthetic root and any selectively matched entry
whose enclosing tag was not indexed) or a parent that is itself a
position of the index; and every entry with `list_index ≥ 0` has an
empty header name. -/
theorem c4_amended (fuel : Nat) (r : Nbt.Reader) (sel : List Nbt.TagHeader)
    (r' : Nbt.Reader) (ix : List (Nat × Nbt.IdxEntry))
    (hidx : r.index = none)
    (hrun : Nbt.prepareIndex fuel r sel = some (r', none))
    (hix : r'.index = some ix) :
    ∀ p e, Nbt.lookupAL p ix = some e →
      (0 ≤ e.listIndex → e.header.name = []) ∧
      (e.parent = -1 ∨
        (0 ≤ e.parent ∧ (Nbt.lookupAL e.parent.toNat ix).isSome = true)) := by
  unfold Nbt.prepareIndex at hrun
  rw [hidx] at hrun
  simp only [Option.isSome_none, Bool.false_eq_true, if_false] at hrun
  split at hrun
  next st' heq =>
    have hres := (Nbt.indexer_inv r.data sel fuel).1 ⟨r.cursor, [(0, Nbt.rootEntry)]⟩
      0 false st' Nbt.indexInv_root (fun hb => absurd hb Bool.false_ne_true) heq
    injection hrun with hrun'
    have hr' : r' = { r with index := some st'.index } := (Prod.mk.injEq _ _ _ _).mp hrun' |>.1.symm
    rw [hr'] at hix
    simp only at hix
    injection hix with hix'
    intro p e hp
    rw [← hix'] at hp
    have := hres.1 p e hp
    rw [← hix']
    exact this
  next st' heq =>
    injection hrun with hrun'
    exact absurd ((Prod.mk.injEq _ _ _ _).mp hrun').2 (by simp)
  next heq => exact Option.noConfusion hrun

/-- C4 (witness for the amended theorem): the recorded non-root entry of
the counterexample blob indeed has a null parent, as the amended claim
allows. -/
theorem c4_amended_witness :
    (⟨-1, [], ⟨3, [110]⟩, -1⟩ : Nbt.IdxEntry).parent = -1 ∨
      (0 ≤ (⟨-1, [], ⟨3, [110]⟩, -1⟩ : Nbt.IdxEntry).parent ∧
        (Nbt.lookupAL (⟨-1, [], ⟨3, [110]⟩, -1⟩ : Nbt.IdxEntry).parent.toNat
          [(0, Nbt.rootEntry), (4, ⟨-1, [], ⟨3, [110]⟩, -1⟩)]).isSome = true) :=
  (c4_amended 64 (Nbt.newReader Nbt.c4blob) Nbt.c4sel
    ⟨Nbt.c4blob, 0, some [(0, Nbt.rootEntry), (4, ⟨-1, [], ⟨3, [110]⟩, -1⟩)]⟩
    [(0, Nbt.rootEntry), (4, ⟨-1, [], ⟨3, [110]⟩, -1⟩)] rfl rfl rfl 4
    ⟨-1, [], ⟨3, [110]⟩, -1⟩ rfl).2

namespace Nbt

theorem bytesIndex_spec (s pat : List Nat) (i : Nat)
    (h : bytesIndex s pat = some i) : (s.drop i).take pat.length = pat := by
  have h2 := List.find?_some h
  simpa using h2

/-- With `count ≤ 0`, the very first found occurrence already satisfies
`total > 0 && total >= count`, so the loop stops after one hit. -/
theorem simpleMatchLoop_first (data pat : List Nat) (count : Int) (fuel : Nat)
    (hcnt : count ≤ 0) :
    simpleMatchLoop data pat count (fuel + 1) 0 0 [] =
      .ok (bytesIndex data pat).toList := by
  simp only [simpleMatchLoop]
  rw [if_pos (Nat.zero_le _), List.drop_zero]
  cases hbi : bytesIndex data pat with
  | none => simp [hbi]
  | some i =>
    simp only [hbi]
    rw [if_pos ⟨by norm_num, by push_cast; omega⟩]
    simp

theorem simpleMatchLoop_spec (data pat : List Nat) (count : Int) :
    ∀ (fuel cursor total : Nat) (acc l : List Nat),
      (total : Int) < count →
      (∀ p ∈ acc, (data.drop p).take pat.length = pat) →
      acc.length = total →
      simpleMatchLoop data pat count fuel cursor total acc = .ok l →
      (l.length : Int) ≤ count ∧ ∀ p ∈ l, (data.drop p).take pat.length = pat := by
  intro fuel
  induction fuel with
  | zero =>
    intro cursor total acc l _ _ _ h
    simp [simpleMatchLoop] at h
  | succ fuel ih =>
    intro cursor total acc l hlt hmem hlen h
    simp only [simpleMatchLoop] at h
    split at h
    · split at h
      · injection h with h1
        constructor
        · rw [← h1, List.length_reverse, hlen]
          exact le_of_lt hlt
        · intro p hp
          rw [← h1, List.mem_reverse] at hp
          exact hmem p hp
      next i hbi =>
        have hocc : (data.drop (cursor + i)).take pat.length = pat := by
          have h0 := bytesIndex_spec _ _ _ hbi
          rwa [List.drop_drop] at h0
        split at h
        next hstop =>
          injection h with h1
          constructor
          · rw [← h1, List.length_reverse, List.length_cons, hlen]
            push_cast
            omega
          · intro p hp
            rw [← h1, List.mem_reverse, List.mem_cons] at hp
            rcases hp with hp | hp
            · rw [hp, Nat.add_sub_cancel]
              exact hocc
            · exact hmem p hp
        next hstop =>
          refine ih (cursor + i + 1) (total + 1) ((cursor + i + 1 - 1) :: acc) l ?_ ?_ ?_ h
          · have h2 : ¬ count ≤ ((total + 1 : Nat) : Int) :=
              fun hc => hstop ⟨Nat.succ_pos _, hc⟩
            push_cast at h2 ⊢
            omega
          · intro p hp
            rw [List.mem_cons] at hp
            rcases hp with hp | hp
            · rw [hp, Nat.add_sub_cancel]
              exact hocc
            · exact hmem p hp
          · simp [hlen]
    · exact SLoopRes.noConfusion h

end Nbt

/-- C8 (counterexample): `SimpleMatch([0], -1)` over the blob
`[0, 0, 0]` returns only the first occurrence `[0]`, because the break
condition `total > 0 && total >= count` is already true after one hit
for any negative `count`; the claim says all occurrences `[0, 1, 2]`
are returned. -/
theorem c8_counterexample :
    Nbt.simpleMatch (Nbt.newReader [0, 0, 0]) [0] (-1) =
      .ok [0] (Nbt.newReader [0, 0, 0]) ∧
    Nbt.specAllOccurrences [0, 0, 0] [0] = [0, 1, 2] ∧
    ([0] : List Nat) ≠ [0, 1, 2] := by
  refine ⟨rfl, rfl, by decide⟩

/-- C8 (amended): `SimpleMatch(pattern, count)` returns occurrence
positions of the pattern; for `count ≤ 0` it returns just the FIRST
occurrence (empty if none), and for `count ≥ 1` at most `count`
occurrences, each a genuine occurrence position. -/
theorem c8_amended (r : Nbt.Reader) (pat : List Nat) (count : Int)
    (l : List Nat) (r' : Nbt.Reader)
    (h : Nbt.simpleMatch r pat count = .ok l r') :
    (count ≤ 0 → l = (Nbt.bytesIndex r.data pat).toList) ∧
    (1 ≤ count → (l.length : Int) ≤ count ∧
      ∀ p ∈ l, (r.data.drop p).take pat.length = pat) := by
  unfold Nbt.simpleMatch at h
  split at h
  · exact Nbt.SimpleRes.noConfusion h
  · exact Nbt.SimpleRes.noConfusion h
  next l0 heq =>
    injection h with h1 h2
    constructor
    · intro hcnt
      rw [show r.data.length + 2 = r.data.length + 1 + 1 from rfl,
        Nbt.simpleMatchLoop_first r.data pat count (r.data.length + 1) hcnt] at heq
      injection heq with h3
      rw [← h1, ← h3]
    · intro hcnt
      have hs := Nbt.simpleMatchLoop_spec r.data pat count (r.data.length + 2) 0 0 [] l0
        (by omega) (by intro p hp; exact absurd hp (List.not_mem_nil p)) rfl heq
      rw [← h1]
      exact hs

/-- C8 (witness for the amended theorem): at `count = 2` over `[0,0,0]`
the run returns `[0, 1]`, whose length is at most 2 and whose members
are occurrences. -/
theorem c8_amended_witness :
    ((([0, 1] : List Nat).length : Int) ≤ 2 ∧
      ∀ p ∈ ([0, 1] : List Nat),
        (([0, 0, 0] : List Nat).drop p).take ([0] : List Nat).length = [0]) :=
  (c8_amended (Nbt.newReader [0, 0, 0]) [0] 2 [0, 1] (Nbt.newReader [0, 0, 0]) rfl).2
    (by norm_num)

/-- C9 (counterexample): a header that begins in bounds but whose name
length bytes or payload run past the end of the buffer makes the read
routines panic (crash) instead of returning a truncated-input error:
`ReadTagHeader` on `[0x01]`, `ReadListTagHeader` on `[0x03, 0, 0]`, and
`ReadImmediate(TagInt)` past the end all crash. -/
theorem c9_counterexample :
    Nbt.readTagHeader [1] 0 = .crashed ∧
    Nbt.readListTagHeader [3, 0, 0] 0 = .crashedAt 1 ∧
    Nbt.readImmediate [3, 0, 1, 110] 1 3 .dInt 4 = .crashed := by
  refine ⟨rfl, rfl, rfl⟩

/-- C9 (amended): only a cursor already at or past the end of the
buffer produces the graceful `io.EOF` error (`ReadTagHeader` and
`SkipTagHeader`); any decode that begins in bounds but would advance
past the end panics rather than returning an error; and when the decode
fits entirely within the buffer, neither error nor panic occurs. -/
theorem c9_amended (data : List Nat) (c : Nat) :
    (data.length ≤ c →
      Nbt.readTagHeader data c = .eof ∧ Nbt.skipTagHeader data c = .eof) ∧
    (c < data.length → Nbt.byteAt data c ≠ 0 →
      data.length < c + 3 + Nbt.be16 data (c + 1) →
      Nbt.readTagHeader data c = .crashed) ∧
    (Nbt.byteAt data c ≠ 0 → c + 3 + Nbt.be16 data (c + 1) ≤ data.length →
      Nbt.readTagHeader data c =
        .ok ⟨Nbt.byteAt data c, (data.drop (c + 3)).take (Nbt.be16 data (c + 1))⟩
          (3 + Nbt.be16 data (c + 1)) (c + 3 + Nbt.be16 data (c + 1))) ∧
    (data.length < c + 5 → ∃ cc, Nbt.readListTagHeader data c = .crashedAt cc) ∧
    (c + 5 ≤ data.length →
      Nbt.readListTagHeader data c =
        .ok (Nbt.byteAt data c) (Nbt.be32 data (c + 1)) (c + 5)) ∧
    (∀ fuel, data.length < c + 4 →
      Nbt.readImmediate data (fuel + 1) 3 .dInt c = .crashed) ∧
    (∀ fuel, c + 4 ≤ data.length →
      Nbt.readImmediate data (fuel + 1) 3 .dInt c =
        .ok (.vInt (Nbt.toInt32 (Nbt.be32 data c))) 4 (c + 4)) := by
  refine ⟨?_, ?_, ?_, ?_, ?_, ?_, ?_⟩
  · intro h1
    constructor
    · simp only [Nbt.readTagHeader]
      rw [if_pos h1]
    · simp only [Nbt.skipTagHeader]
      rw [if_pos h1]
  · intro h1 h2 h3
    simp only [Nbt.readTagHeader]
    rw [if_neg (by omega), if_neg h2]
    by_cases h4 : c + 2 < data.length
    · rw [if_pos h4, if_neg (by omega)]
    · rw [if_neg h4]
  · intro h2 h3
    simp only [Nbt.readTagHeader]
    rw [if_neg (by omega), if_neg h2, if_pos (by omega), if_pos h3]
  · intro h1
    simp only [Nbt.readListTagHeader]
    by_cases h2 : c < data.length
    · rw [if_pos h2, if_neg (by omega)]
      exact ⟨c + 1, rfl⟩
    · rw [if_neg h2]
      exact ⟨c, rfl⟩
  · intro h1
    simp only [Nbt.readListTagHeader]
    rw [if_pos (by omega), if_pos h1]
  · intro fuel h1
    simp only [Nbt.readImmediate]
    norm_num
    intro h2
    exact absurd h2 (by omega)
  · intro fuel h1
    simp only [Nbt.readImmediate]
    norm_num
    intro h2
    exact absurd h1 (by omega)

/-- C9 (witness for the amended theorem): concrete applications of the
in-bounds and end-of-buffer clauses. -/
theorem c9_amended_witness :
    Nbt.readTagHeader [3, 0, 1, 110, 0, 0, 0, 42] 0 = .ok ⟨3, [110]⟩ 4 4 ∧
    Nbt.readTagHeader [3, 0, 1, 110] 4 = .eof ∧
    Nbt.readListTagHeader [9, 0, 0, 0, 2, 0] 0 = .ok 9 2 5 := by
  refine ⟨?_, ?_, ?_⟩
  · exact (c9_amended [3, 0, 1, 110, 0, 0, 0, 42] 0).2.2.1 (by decide) (by decide)
  · exact ((c9_amended [3, 0, 1, 110] 4).1 (by decide)).1
  · exact (c9_amended [9, 0, 0, 0, 2, 0] 0).2.2.2.2.1 (by decide)

/-- C10: `MatchTags`, `SimpleMatch` and `PossibleTagMatch` leave the
reader unchanged: on every return path (normal or error; the saved
cursor is restored by `defer` even while a panic unwinds) the returned
reader — cursor, backing data and index — equals the input reader. -/
theorem c10_frame (fuel : Nat) (r : Nbt.Reader) (grp : List (List Nat))
    (pat : List Nat) (count : Int) (pats : List (List (List Nat))) :
    (∀ res r2, Nbt.matchTagsA fuel r grp = .done res r2 → r2 = r) ∧
    (∀ r2, Nbt.matchTagsA fuel r grp = .crashed r2 → r2 = r) ∧
    (∀ l r2, Nbt.simpleMatch r pat count = .ok l r2 → r2 = r) ∧
    (∀ r2, Nbt.simpleMatch r pat count = .crashed r2 → r2 = r) ∧
    (Nbt.possibleTagMatch r pats).2 = r := by
  refine ⟨?_, ?_, ?_, ?_, rfl⟩
  · intro res r2 h
    unfold Nbt.matchTagsA at h
    split at h
    · injection h with h1 h2
      exact h2.symm
    · split at h
      · exact Nbt.MatchARes.noConfusion h
      · exact Nbt.MatchARes.noConfusion h
      · injection h with h1 h2
        exact h2.symm
      · injection h with h1 h2
        exact h2.symm
  · intro r2 h
    unfold Nbt.matchTagsA at h
    split at h
    · exact Nbt.MatchARes.noConfusion h
    · split at h
      · exact Nbt.MatchARes.noConfusion h
      · injection h with h1
        exact h1.symm
      · exact Nbt.MatchARes.noConfusion h
      · exact Nbt.MatchARes.noConfusion h
  · intro l r2 h
    unfold Nbt.simpleMatch at h
    split at h
    · exact Nbt.SimpleRes.noConfusion h
    · exact Nbt.SimpleRes.noConfusion h
    · injection h with h1 h2
      exact h2.symm
  · intro r2 h
    unfold Nbt.simpleMatch at h
    split at h
    · exact Nbt.SimpleRes.noConfusion h
    · injection h with h1
      exact h1.symm
    · exact Nbt.SimpleRes.noConfusion h

/-- C10 (witness): concrete runs of the match routines on an indexed
reader with a nonzero cursor return the reader unchanged. -/
theorem c10_frame_witness :
    Nbt.c10reader = Nbt.c10reader ∧ Nbt.c10reader = Nbt.c10reader :=
  ⟨(c10_frame 64 Nbt.c10reader [[3, 0, 1, 110]] [110] 2 []).1
      (.error .indexCorrupt) Nbt.c10reader rfl,
    (c10_frame 64 Nbt.c10reader [[3, 0, 1, 110]] [110] 2 []).2.2.1
      [3] Nbt.c10reader rfl⟩
